import Mathlib

/-!
Shallow embedding of `src/dashboard/src/t5gweb/t5gweb.py` (the correlation and
aggregation engine of t5g-field-support-team-utils) together with proofs about
the claims of the specification.

Conventions of the embedding:
* Python `datetime` values are represented as absolute timestamps in integer
  microseconds (`Int`); `timedelta.days` is floor division by the number of
  microseconds per day, matching Python's normalization of negative timedeltas.
* `datetime.strptime` is modelled by executable parsers returning `Option Int`;
  `none` models the `ValueError` raised on a malformed timestamp.  The parsers
  follow CPython's `_strptime` field regexes (1-2 digit leniency for
  month/day/hour/minute/second, case-insensitive literals, full-string match)
  and the calendar validation performed by the `datetime` constructor.
* Fallible Python functions are modelled in `Except String`.
* Python dicts are modelled as association lists in insertion order.
-/

deriving instance DecidableEq for Except

/-! ## Basic time arithmetic -/

/-- Microseconds per day; `timedelta.days` is `fdiv` by this. -/
def usPerDay : Int := 86400000000

/-- Leap-year test of the proleptic Gregorian calendar (Python `datetime`). -/
def isLeap (y : Int) : Bool := y % 4 == 0 && (y % 100 != 0 || y % 400 == 0)

/-- Number of days in a month, as validated by the Python `datetime` constructor. -/
def daysInMonth (y m : Int) : Int :=
  if m = 2 then (if isLeap y then 29 else 28)
  else if m = 4 ∨ m = 6 ∨ m = 9 ∨ m = 11 then 30
  else 31

/-- Days from 1970-01-01 to the given civil date (proleptic Gregorian),
    the arithmetic used by Python's `datetime` ordinal computation. -/
def daysFromCivil (y m d : Int) : Int :=
  let y2 : Int := if m ≤ 2 then y - 1 else y
  let era : Int := y2.fdiv 400
  let yoe : Int := y2 - era * 400
  let mp : Int := (m + 9) % 12
  let doy : Int := (153 * mp + 2).fdiv 5 + d - 1
  let doe : Int := yoe * 365 + yoe.fdiv 4 - yoe.fdiv 100 + doy
  era * 146097 + doe - 719468

/-- Epoch microseconds of a naive civil datetime. -/
def epochUs (y mo d h mi s : Int) : Int :=
  (daysFromCivil y mo d * 86400 + h * 3600 + mi * 60 + s) * 1000000

/-! ## strptime parsers -/

/-- Numeric value of a digit character. -/
def digitVal (c : Char) : Int := (c.toNat : Int) - 48

/-- `%Y`: exactly four digits (CPython `_strptime` pattern `\d\d\d\d`). -/
def parseY : List Char → Option (Int × List Char)
  | a :: b :: c :: d :: r =>
    if a.isDigit && b.isDigit && c.isDigit && d.isDigit then
      some (digitVal a * 1000 + digitVal b * 100 + digitVal c * 10 + digitVal d, r)
    else none
  | _ => none

/-- Two-digit-or-one-digit numeric field.  `valid2` accepts the two-digit
    reading, `valid1` the one-digit fallback, mirroring the alternations of the
    CPython `_strptime` field regexes (e.g. `1[0-2]|0[1-9]|[1-9]` for `%m`).
    With a non-digit separator following the field, greedy two-then-one choice
    coincides with the regex's backtracking. -/
def parse2or1 (valid2 : Int → Bool) (valid1 : Int → Bool) :
    List Char → Option (Int × List Char)
  | a :: b :: r =>
    if a.isDigit && b.isDigit then
      let v := digitVal a * 10 + digitVal b
      if valid2 v then some (v, r)
      else if valid1 (digitVal a) then some (digitVal a, b :: r) else none
    else if a.isDigit && valid1 (digitVal a) then some (digitVal a, b :: r)
    else none
  | [a] => if a.isDigit && valid1 (digitVal a) then some (digitVal a, []) else none
  | [] => none

/-- `%m`: `1[0-2]|0[1-9]|[1-9]`. -/
def parseMonth : List Char → Option (Int × List Char) :=
  parse2or1 (fun v => 1 ≤ v && v ≤ 12) (fun v => 1 ≤ v && v ≤ 9)

/-- `%d`: `3[01]|[12]\d|0[1-9]|[1-9]`. -/
def parseDay : List Char → Option (Int × List Char) :=
  parse2or1 (fun v => 1 ≤ v && v ≤ 31) (fun v => 1 ≤ v && v ≤ 9)

/-- `%H`: `2[0-3]|[0-1]\d|\d`. -/
def parseHour : List Char → Option (Int × List Char) :=
  parse2or1 (fun v => v ≤ 23) (fun _ => true)

/-- `%M` and `%S`: `[0-5]\d|\d`. -/
def parseMinSec : List Char → Option (Int × List Char) :=
  parse2or1 (fun v => v ≤ 59) (fun _ => true)

/-- A literal character of the format string; `_strptime` compiles the whole
    pattern with `re.IGNORECASE`, so letters match case-insensitively. -/
def lit (c : Char) : List Char → Option (List Char)
  | x :: r => if x.toLower = c.toLower then some r else none
  | [] => none

/-- Shared front of both timestamp formats: `%Y-%m-%dT%H:%M:%S`, including the
    `datetime` constructor's range validation (year ≥ 1, day within month). -/
def parseCivil (l : List Char) : Option ((Int × Int × Int × Int × Int × Int) × List Char) := do
  let (y, r) ← parseY l
  let r ← lit '-' r
  let (mo, r) ← parseMonth r
  let r ← lit '-' r
  let (d, r) ← parseDay r
  let r ← lit 'T' r
  let (h, r) ← parseHour r
  let r ← lit ':' r
  let (mi, r) ← parseMinSec r
  let r ← lit ':' r
  let (s, r) ← parseMinSec r
  if 1 ≤ y ∧ d ≤ daysInMonth y mo then
    some ((y, mo, d, h, mi, s), r)
  else none

/-- `datetime.strptime(s, "%Y-%m-%dT%H:%M:%SZ")`, as epoch microseconds of a
    naive datetime; `none` models the raised `ValueError`. -/
def parseCaseDate (str : String) : Option Int := do
  let ((y, mo, d, h, mi, s), r) ← parseCivil str.data
  let r ← lit 'Z' r
  if r = [] then some (epochUs y mo d h mi s) else none

/-- `%f`: one to six digits, right-padded to microseconds. -/
def parseFrac : List Char → Option (Int × List Char)
  | l =>
    let digits := (l.take 6).takeWhile Char.isDigit
    if digits = [] then none
    else
      let v := digits.foldl (fun acc c => acc * 10 + digitVal c) 0
      some (v * (10 ^ (6 - digits.length) : Nat), l.drop digits.length)

/-- Exactly two digits with the first in `[0-5]` (the `[0-5]\d` atoms of `%z`). -/
def parse2d05 : List Char → Option (Int × List Char)
  | a :: b :: r =>
    if a.isDigit && digitVal a ≤ 5 && b.isDigit then
      some (digitVal a * 10 + digitVal b, r)
    else none
  | _ => none

/-- `%z`: `[+-]\d\d:?[0-5]\d(:?[0-5]\d(\.\d{1,6})?)?|(?-i:Z)`, returning the
    UTC offset in microseconds; the `timezone` constructor then requires the
    offset to be strictly less than 24 hours in magnitude. -/
def parseZoff : List Char → Option (Int × List Char)
  | 'Z' :: r => some (0, r)
  | c :: a :: b :: r =>
    if (c = '+' ∨ c = '-') ∧ a.isDigit ∧ b.isDigit then
      let h := digitVal a * 10 + digitVal b
      let r := match r with
        | ':' :: r2 => r2
        | _ => r
      match parse2d05 r with
      | none => none
      | some (mm, r) =>
        -- optional seconds (with optional colon) and optional fraction
        let tryColon := fun (l : List Char) => match l with
          | ':' :: r2 => r2
          | _ => l
        let (ss, fr, r) :=
          match parse2d05 (tryColon r) with
          | some (ss, r2) =>
            match r2 with
            | '.' :: r3 =>
              match parseFrac r3 with
              | some (fr, r4) => (ss, fr, r4)
              | none => (ss, 0, r2)
            | _ => (ss, 0, r2)
          | none => (0, 0, r)
        let total : Int := (h * 3600 + mm * 60 + ss) * 1000000 + fr
        if total < 86400000000 then
          some (if c = '-' then -total else total, r)
        else none
    else none
  | _ => none

/-- `datetime.strptime(s, "%Y-%m-%dT%H:%M:%S.%f%z")`, as absolute epoch
    microseconds (offset-adjusted); `none` models the raised `ValueError`. -/
def parseCommentTs (str : String) : Option Int := do
  let ((y, mo, d, h, mi, s), r) ← parseCivil str.data
  let r ← lit '.' r
  let (fr, r) ← parseFrac r
  let (off, r) ← parseZoff r
  if r = [] then some (epochUs y mo d h mi s + fr - off) else none

/-! ## `get_new_cases` -/

/-- A support-case record as consumed by `get_new_cases`. -/
structure Case where
  case_number : String
  case_severity : String
  case_createdDate : String
  case_summary : String
deriving Repr, DecidableEq

/-- `re.sub('\(|\)| |[0-9]', '', severity)`: drop parentheses, spaces and digits. -/
def stripSeverity (s : String) : String :=
  ⟨s.data.filter (fun c => !(c = '(' || c = ')' || c = ' ' || c.isDigit))⟩

/-- The case record after the in-place severity rewrite of line 59. -/
def stripCase (c : Case) : Case := {c with case_severity := stripSeverity c.case_severity}

/-- The selection predicate of lines 56-58: parse the creation date and test
    `(now - create_date).days < 7`. -/
def caseKept (now : Int) (c : Case) : Bool :=
  match parseCaseDate c.case_createdDate with
  | some t => (now - t).fdiv usPerDay < 7
  | none => false

/-- Stable insertion into a severity-sorted list (earlier-listed elements stay
    in front of later equal ones). -/
def insertCase (c : Case) : List Case → List Case
  | [] => [c]
  | d :: rest =>
    if c.case_severity ≤ d.case_severity then c :: d :: rest
    else d :: insertCase c rest

/-- `sorted(cases, key=lambda i: i['case_severity'])`: Python's `sorted` is a
    stable sort by the severity string, so any stable sort computes the same
    list; we use stable insertion sort. -/
def sortCases : List Case → List Case
  | [] => []
  | c :: rest => insertCase c (sortCases rest)

/-- The loop body of lines 55-61: parse each creation date (a parse failure
    aborts the whole call, modelling the uncaught `ValueError`), keep cases
    whose age in days is `< 7`, rewriting their severity. -/
def processCases (now : Int) : List Case → Except String (List Case)
  | [] => .ok []
  | c :: rest =>
    match parseCaseDate c.case_createdDate with
    | none => .error ("time data " ++ c.case_createdDate ++ " does not match format")
    | some t =>
      match processCases now rest with
      | .error e => .error e
      | .ok rest' =>
        if (now - t).fdiv usPerDay < 7 then .ok (stripCase c :: rest') else .ok rest'

/-- `get_new_cases` (lines 35-62), restricted to its pure core: the JIRA/token
    fetches only produce the input `cases`; `now` is the value of
    `datetime.now()` in microseconds. -/
def get_new_cases (now : Int) (cases : List Case) : Except String (List Case) :=
  processCases now (sortCases cases)

/-! ## Data model of `get_new_comments` -/

/-- A card comment: body text and an `updated` timestamp string. -/
structure Comment where
  body : String
  updated : String
deriving Repr, DecidableEq

/-- A remote link attached to a card (`conn.remote_link` raw object). -/
structure RemoteLink where
  title : String
  url : String
deriving Repr, DecidableEq

/-- A sprint card together with the fields `get_new_comments` reads from the
    JIRA issue (`issue.fields.*`) and its remote links. -/
structure CardInput where
  key : String
  summary : String
  status : String
  assignee : String
  comments : List Comment
  links : List RemoteLink
deriving Repr, DecidableEq

/-- The per-case data consumed from `libtelco5g.get_cases` output. -/
structure CaseInfo where
  account : String
  tags : List String
deriving Repr, DecidableEq

/-- One entry of `detailed_cards` (line 110). -/
structure DetailedCard where
  caseNum : String
  summary : String
  account : String
  card_status : String
  comments : List String
  assignee : String
  tags : List String
deriving Repr, DecidableEq

/-- Dict lookup in the `cases` mapping (case number → case data). -/
def lookupCI (cases : List (String × CaseInfo)) (k : String) : Option CaseInfo :=
  (cases.find? (fun p => p.1 == k)).map (fun p => p.2)

/-! ## Card-to-case association (lines 85-100) -/

/-- The body of the link loop of lines 92-97: a remote link titled
    "Support Case" whose URL yields a non-empty case number overwrites the
    association; `gcn` models `libtelco5g.get_case_number`. -/
def assocStep (gcn : String → String) (acc : Option String) (link : RemoteLink) :
    Option String :=
  if link.title == "Support Case" then
    let n := gcn link.url
    if n.length > 0 then some n else acc
  else acc

/-- The link loop of lines 90-97 for one card, starting from the `None` put in
    `cards_dict` at line 87. -/
def associate (gcn : String → String) (links : List RemoteLink) : Option String :=
  links.foldl (assocStep gcn) none

/-- `cards_dict` is a Python dict keyed by `card.key`: duplicate keys collapse
    onto the first insertion; `seen` carries the keys already inserted. -/
def dedupByKey (seen : List String) : List CardInput → List CardInput
  | [] => []
  | c :: rest =>
    if c.key ∈ seen then dedupByKey seen rest
    else c :: dedupByKey (c.key :: seen) rest

/-- `linked_cards` (line 100): cards whose association is not `None`, paired
    with their case number. -/
def linkedCards (gcn : String → String) (cards : List CardInput) :
    List (CardInput × String) :=
  (dedupByKey [] cards).filterMap (fun c => (associate gcn c.links).map (fun n => (c, n)))

/-! ## Comment windowing (line 110) -/

/-- The comment comprehension of line 110: keep the body of each comment with
    `(time_now - updated).days < 7`; a timestamp that fails to parse aborts the
    call (uncaught `ValueError`). -/
def windowComments (now : Int) : List Comment → Except String (List String)
  | [] => .ok []
  | m :: rest =>
    match parseCommentTs m.updated with
    | none => .error ("time data " ++ m.updated ++ " does not match format")
    | some t =>
      match windowComments now rest with
      | .error e => .error e
      | .ok rest' =>
        if (now - t).fdiv usPerDay < 7 then .ok (m.body :: rest') else .ok rest'

/-- The retention predicate of the comment window. -/
def commentKept (now : Int) (m : Comment) : Bool :=
  match parseCommentTs m.updated with
  | some t => (now - t).fdiv usPerDay < 7
  | none => false

/-- The `detailed_cards` loop of lines 105-112: skip cards whose case number is
    not in `cases`; build the record with the windowed comments; pop records
    whose comment list is empty. -/
def buildDetailed (now : Int) (cases : List (String × CaseInfo)) :
    List (CardInput × String) → Except String (List (String × DetailedCard))
  | [] => .ok []
  | (c, num) :: rest =>
    match lookupCI cases num with
    | none => buildDetailed now cases rest
    | some info =>
      match windowComments now c.comments with
      | .error e => .error e
      | .ok bodies =>
        match buildDetailed now cases rest with
        | .error e => .error e
        | .ok rest' =>
          if bodies.length == 0 then .ok rest'
          else .ok ((c.key, { caseNum := num, summary := c.summary, account := info.account,
                              card_status := c.status, comments := bodies,
                              assignee := c.assignee, tags := info.tags }) :: rest')

/-! ## Hyperlink rewriting (lines 113-117)

The two `re.sub` calls are embedded as deterministic scanners.  The URL atom
`(http|ftp|https):\/\/([\w_-]+(?:(?:\.[\w_-]+)+))([\w.,@?^=%&:\/~+#-]*[\w@?^=%&\/~+#-])?`
is matched by maximal munch, which coincides with the regex's greedy operators
here because every character a shorter alternative would give back belongs to
the same character class and therefore cannot satisfy the context that follows
the atom in either pattern. -/

/-- Python `\s` over ASCII. -/
def isSpaceCh (c : Char) : Bool :=
  c = ' ' || c = '\t' || c = '\n' || c = '\r' || c = '\x0b' || c = '\x0c'

/-- Python `\w` over ASCII. -/
def isWordCh (c : Char) : Bool := c.isAlphanum || c = '_'

/-- The domain-label class `[\w_-]`. -/
def isDomCh (c : Char) : Bool := isWordCh c || c = '-'

/-- The path class `[\w.,@?^=%&:\/~+#-]`. -/
def isPathACh (c : Char) : Bool :=
  isWordCh c || c = '.' || c = ',' || c = '@' || c = '?' || c = '^' || c = '=' ||
    c = '%' || c = '&' || c = ':' || c = '/' || c = '~' || c = '+' || c = '#' || c = '-'

/-- The final path-character class `[\w@?^=%&\/~+#-]` (the path class minus
    `.`, `,` and `:`). -/
def isPathBCh (c : Char) : Bool :=
  isWordCh c || c = '@' || c = '?' || c = '^' || c = '=' || c = '%' || c = '&' ||
    c = '/' || c = '~' || c = '+' || c = '#' || c = '-'

/-- The scheme alternation `(http|ftp|https)` followed by `://`. -/
def tryScheme : List Char → Option (List Char × List Char)
  | 'h' :: 't' :: 't' :: 'p' :: ':' :: '/' :: '/' :: r =>
    some (['h', 't', 't', 'p', ':', '/', '/'], r)
  | 'h' :: 't' :: 't' :: 'p' :: 's' :: ':' :: '/' :: '/' :: r =>
    some (['h', 't', 't', 'p', 's', ':', '/', '/'], r)
  | 'f' :: 't' :: 'p' :: ':' :: '/' :: '/' :: r =>
    some (['f', 't', 'p', ':', '/', '/'], r)
  | _ => none

/-- `(?:(?:\.[\w_-]+)+)` by greedy repetition: consume `.label` groups. -/
def domLabels : Nat → List Char → (List Char × List Char)
  | 0, l => ([], l)
  | fuel + 1, l =>
    match l with
    | '.' :: r =>
      let lbl := r.takeWhile isDomCh
      if lbl = [] then ([], l)
      else
        let (more, rest) := domLabels fuel (r.drop lbl.length)
        ('.' :: (lbl ++ more), rest)
    | _ => ([], l)

/-- Strip trailing `.`, `,`, `:` — the greedy resolution of `A*B` where `B` is
    `A` without those three characters. -/
def trimPath (l : List Char) : List Char :=
  (l.reverse.dropWhile (fun c => c = '.' || c = ',' || c = ':')).reverse

/-- Match the URL atom at the head of the input, returning the matched text and
    the rest. -/
def tryUrl (l : List Char) : Option (List Char × List Char) :=
  match tryScheme l with
  | none => none
  | some (sch, r) =>
    let lbl1 := r.takeWhile isDomCh
    if lbl1 = [] then none
    else
      let r2 := r.drop lbl1.length
      let (dots, r3) := domLabels r2.length r2
      if dots = [] then none
      else
        let runA := r3.takeWhile isPathACh
        let path := trimPath runA
        some (sch ++ lbl1 ++ dots ++ path, r3.drop path.length)

/-- The lazy `\s*?` before the URL atom of the first pattern: try the URL after
    zero whitespace characters first, then after one, and so on; the consumed
    whitespace is part of the whole match (`\g<0>`). -/
def trySpacesUrl : Nat → List Char → Option (List Char × List Char)
  | fuel, l =>
    match tryUrl l with
    | some (u, r) => some (u, r)
    | none =>
      match fuel, l with
      | f + 1, c :: r =>
        if isSpaceCh c then
          match trySpacesUrl f r with
          | some (m, rest) => some (c :: m, rest)
          | none => none
        else none
      | _, _ => none

/-- The replacement template of line 116 applied to the whole match. -/
def sub1Repl (m : List Char) : List Char :=
  "<a href=\"".data ++ m ++ "\" target='_blank'>".data ++ m ++ "</a>".data

/-- Last character of a nonempty match (default never used). -/
def lastD (l : List Char) (d : Char) : Char := l.getLastD d

/-- The scan of `re.sub` for the first pattern: at each position, the negative
    lookbehind `(?<!\||\s)` inspects the previous character of the original
    text; on a match, scanning resumes after the matched span. -/
def sub1Go : Nat → Option Char → List Char → List Char
  | 0, _, l => l
  | fuel + 1, prev, l =>
    match l with
    | [] => []
    | c :: rest =>
      let lookOk := match prev with
        | none => true
        | some p => !(p = '|' || isSpaceCh p)
      match (if lookOk then trySpacesUrl l.length l else none) with
      | some (m, r) => sub1Repl m ++ sub1Go fuel (some (lastD m c)) r
      | none => c :: sub1Go fuel (some c) rest

/-- Line 116: wrap bare URLs in anchor markup. -/
def sub1Str (s : String) : String := ⟨sub1Go s.data.length none s.data⟩

/-- The bracketed-construct inner class
    `[\s\w!"#$%&\'()*+,-.\/:;<=>?@[^_`{|}~]`: whitespace, word characters and
    every ASCII punctuation character except `]` and backslash. -/
def isCls2 (c : Char) : Bool :=
  isSpaceCh c || isWordCh c ||
    ((33 ≤ c.toNat && c.toNat ≤ 126) && !c.isAlphanum && c ≠ ']' && c ≠ '\\')

/-- After the `\|` of the second pattern: lazy `\s*?`, the URL atom, greedy
    trailing `[\s]*` (captured in group 2 together with the URL), then `]`. -/
def try2AfterPipe : Nat → List Char → Option (List Char × List Char)
  | fuel, l =>
    match tryUrl l with
    | some (u, r) =>
      let ws := r.takeWhile isSpaceCh
      match r.drop ws.length with
      | ']' :: rest => some (u ++ ws, rest)
      | _ => none
    | none =>
      match fuel, l with
      | f + 1, c :: r => if isSpaceCh c then try2AfterPipe f r else none
      | _, _ => none

/-- Group 1 of the second pattern, lazily grown over its character class until
    a `|` is found after which the remainder of the pattern matches; returns
    (group 1, group 2, rest after the closing bracket). -/
def try2 : Nat → List Char → Option (List Char × List Char × List Char)
  | 0, _ => none
  | fuel + 1, l =>
    (match l with
     | '|' :: r =>
       match try2AfterPipe r.length r with
       | some (g2, rest) => some (([] : List Char), g2, rest)
       | none => none
     | _ => none) <|>
    (match l with
     | c :: r =>
       if isCls2 c then
         match try2 fuel r with
         | some (g1, g2, rest) => some (c :: g1, g2, rest)
         | none => none
       else none
     | [] => none)

/-- The replacement template of line 117 (`\2` as href, `\1` as label). -/
def sub2Repl (g1 g2 : List Char) : List Char :=
  "<a href=\"".data ++ g2 ++ "\" target='_blank'>".data ++ g1 ++ "</a>".data

/-- The scan of `re.sub` for the second pattern. -/
def sub2Go : Nat → List Char → List Char
  | 0, l => l
  | fuel + 1, l =>
    match l with
    | [] => []
    | '[' :: r =>
      match try2 r.length r with
      | some (g1, g2, rest) => sub2Repl g1 g2 ++ sub2Go fuel rest
      | none => '[' :: sub2Go fuel r
    | c :: r => c :: sub2Go fuel r

/-- Line 117: rewrite bracketed "display text | URL" constructs. -/
def sub2Str (s : String) : String := ⟨sub2Go s.data.length s.data⟩

/-- The full hyperlink-rewriting step applied to one comment body
    (lines 114-117: first substitution, then the second). -/
def rewriteComment (s : String) : String := sub2Str (sub1Str s)

/-- Lines 113-117 over the whole `detailed_cards` dict. -/
def rewriteCards (d : List (String × DetailedCard)) : List (String × DetailedCard) :=
  d.map (fun p => (p.1, { p.2 with comments := p.2.comments.map rewriteComment }))

/-! ## Grouping by account and status (lines 118-137) -/

/-- A record map: card name → detailed card (insertion-ordered dict). -/
abbrev RecMap := List (String × DetailedCard)

/-- status label → record map. -/
abbrev StatusMap := List (String × RecMap)

/-- The configured `accounts` structure: account name → status map. -/
abbrev AccountsCfg := List (String × StatusMap)

/-- `dict.update({i: dc})`: overwrite in place if the key exists, else append. -/
def updateRec (recs : RecMap) (k : String) (dc : DetailedCard) : RecMap :=
  if recs.any (fun p => p.1 == k) then
    recs.map (fun p => if p.1 == k then (k, dc) else p)
  else recs ++ [(k, dc)]

/-- Is `needle` a prefix of `hay`? -/
def startsWithL (needle hay : List Char) : Bool :=
  match needle, hay with
  | [], _ => true
  | _ :: _, [] => false
  | a :: n, b :: h => a == b && startsWithL n h

/-- Python `needle in hay` substring containment. -/
def containsSub (needle : List Char) : List Char → Bool
  | [] => needle.isEmpty
  | c :: rest => startsWithL needle (c :: rest) || containsSub needle rest

/-- Python `str.lower()` over ASCII, character by character. -/
def lowerCh (c : Char) : Char :=
  if 65 ≤ c.toNat ∧ c.toNat ≤ 90 then Char.ofNat (c.toNat + 32) else c

/-- Python `str.lower()` on a string's characters. -/
def lowerStr (l : List Char) : List Char := l.map lowerCh

/-- The body of the innermost loop of lines 123-130 for one card `i` and one
    `(account, status)` slot: the plain case-insensitive substring match, then
    the CNV-summary override with its `else` branch looping over the tags. -/
def slotStep (i : String) (dc : DetailedCard) (account status : String)
    (recs : RecMap) : RecMap :=
  let recs :=
    if containsSub (lowerStr account.data) (lowerStr dc.account.data)
        && status == dc.card_status then
      updateRec recs i dc
    else recs
  if containsSub "cnv".data (lowerStr dc.summary.data) && status == dc.card_status
      && account == "CNV" then
    updateRec recs i dc
  else
    dc.tags.foldl (fun r k =>
      if containsSub "cnv".data (lowerStr k.data) && status == dc.card_status
          && account == "CNV" then
        updateRec r i dc
      else r) recs

/-- One iteration of the outer loop of line 120: visit every account/status slot. -/
def addCard (accounts : AccountsCfg) (i : String) (dc : DetailedCard) : AccountsCfg :=
  accounts.map (fun a => (a.1, a.2.map (fun s => (s.1, slotStep i dc a.1 s.1 s.2))))

/-- Lines 120-130: group all detailed cards into the configured accounts. -/
def groupCards (detailed : List (String × DetailedCard)) (accounts : AccountsCfg) :
    AccountsCfg :=
  detailed.foldl (fun acc p => addCard acc p.1 p.2) accounts

/-- The value stored under an account after line 135: either the status map or
    the string "No Updates". -/
inductive AcctVal where
  | groups (statuses : StatusMap)
  | noUpdates
deriving Repr, DecidableEq

/-- `sum([len(accounts[account][status]) for status in accounts[account]])`. -/
def countRecs (sts : StatusMap) : Nat := (sts.map (fun s => s.2.length)).sum

/-- Lines 132-135: replace the status map of an account with no updated cards
    by the string "No Updates". -/
def finalize (accounts : AccountsCfg) : List (String × AcctVal) :=
  accounts.map (fun a =>
    if countRecs a.2 = 0 then (a.1, AcctVal.noUpdates) else (a.1, AcctVal.groups a.2))

/-- `get_new_comments` (lines 64-137), restricted to its pure core: `gcn`
    models `libtelco5g.get_case_number`, `now` is `datetime.now(timezone.utc)`
    in epoch microseconds, `cards` the sprint cards with their remote links and
    issue fields, `cases` the case-number → case-data mapping, `accounts` the
    configured account/status structure. -/
def get_new_comments (gcn : String → String) (now : Int) (cards : List CardInput)
    (cases : List (String × CaseInfo)) (accounts : AccountsCfg) :
    Except String (List (String × AcctVal)) :=
  match buildDetailed now cases (linkedCards gcn cards) with
  | .error e => .error e
  | .ok detailed => .ok (finalize (groupCards (rewriteCards detailed) accounts))

/-! ## Helper lemmas -/

/-- A negative time difference has a negative day count (floor division). -/
theorem fdiv_day_neg {a : Int} (ha : a < 0) : a.fdiv usPerDay < 0 := by
  rw [usPerDay, Int.fdiv_eq_ediv _ (by norm_num)]
  omega

theorem mem_insertCase {c d : Case} {l : List Case} :
    d ∈ insertCase c l ↔ d = c ∨ d ∈ l := by
  induction l with
  | nil => simp [insertCase]
  | cons e rest ih =>
    by_cases hle : c.case_severity ≤ e.case_severity
    · simp [insertCase, hle, List.mem_cons]
    · simp only [insertCase, hle, if_false, List.mem_cons, ih]
      tauto

theorem mem_sortCases {c : Case} {l : List Case} : c ∈ sortCases l ↔ c ∈ l := by
  induction l with
  | nil => exact Iff.rfl
  | cons d rest ih => simp [sortCases, mem_insertCase, ih, List.mem_cons]

/-- When every creation date parses, `processCases` filters by `caseKept` and
    rewrites severities. -/
theorem processCases_filter (now : Int) (l : List Case)
    (h : ∀ c ∈ l, (parseCaseDate c.case_createdDate).isSome) :
    processCases now l = .ok ((l.filter (caseKept now)).map stripCase) := by
  induction l with
  | nil => rfl
  | cons c rest ih =>
    obtain ⟨t, ht⟩ := Option.isSome_iff_exists.mp (h c (by simp))
    have ih' := ih (fun d hd => h d (by simp [hd]))
    by_cases hk : (now - t).fdiv usPerDay < 7
    · simp [processCases, ht, ih', List.filter_cons, caseKept, hk]
    · simp [processCases, ht, ih', List.filter_cons, caseKept, hk]

/-- Membership in a successful `processCases` result. -/
theorem processCases_mem (now : Int) (l : List Case) :
    ∀ (res : List Case) (c : Case) (t : Int),
      processCases now l = .ok res → c ∈ l →
      parseCaseDate c.case_createdDate = some t →
      (now - t).fdiv usPerDay < 7 → stripCase c ∈ res := by
  induction l with
  | nil => intro res c t _ hc; simp at hc
  | cons d rest ih =>
    intro res c t hok hc ht hk
    cases hd : parseCaseDate d.case_createdDate with
    | none =>
      rw [processCases, hd] at hok
      exact Except.noConfusion hok
    | some td =>
      cases hrest : processCases now rest with
      | error e =>
        rw [processCases, hd, hrest] at hok
        exact Except.noConfusion hok
      | ok L =>
        rw [processCases, hd, hrest] at hok
        simp only [] at hok
        rcases List.mem_cons.mp hc with rfl | hcr
        · rw [ht] at hd
          injection hd with htd
          subst htd
          rw [if_pos hk] at hok
          injection hok with hres
          subst hres
          exact List.mem_cons_self _ _
        · have hmem := ih L c t hrest hcr ht hk
          by_cases hkd : (now - td).fdiv usPerDay < 7
          · rw [if_pos hkd] at hok
            injection hok with hres
            subst hres
            exact List.mem_cons_of_mem _ hmem
          · rw [if_neg hkd] at hok
            injection hok with hres
            subst hres
            exact hmem

/-! ## Claim C2: new-case selection boundary -/

/-- Claim C2, counterexample: a case created exactly 7 days before `now` has
    `(now - create_date).days = 7`, which satisfies the claimed condition
    `days <= 7`, yet `get_new_cases` excludes it (the code tests `days < 7`). -/
theorem new_case_seven_day_cex :
    parseCaseDate "2026-10-05T00:00:00Z" = some (epochUs 2026 10 5 0 0 0) ∧
      (epochUs 2026 10 12 0 0 0 - epochUs 2026 10 5 0 0 0).fdiv usPerDay = 7 ∧
      get_new_cases (epochUs 2026 10 12 0 0 0)
        [⟨"01", "2 (Medium)", "2026-10-05T00:00:00Z", "s"⟩] = .ok [] := by
  refine ⟨by decide, by decide, by decide⟩

/-- Claim C2 (amended): when every creation date parses, `get_new_cases`
    returns the severity-sorted cases filtered by `caseKept`, and a case is
    kept iff `(now - create_date).days < 7` — a strict boundary: exactly 7
    days old is excluded, strictly less than 7 days (e.g. 6 days 23 hours)
    is included. -/
theorem get_new_cases_window (now : Int) (cases : List Case)
    (h : ∀ c ∈ cases, (parseCaseDate c.case_createdDate).isSome) :
    get_new_cases now cases =
      .ok (((sortCases cases).filter (caseKept now)).map stripCase) ∧
      ∀ c t, parseCaseDate c.case_createdDate = some t →
        (caseKept now c = true ↔ (now - t).fdiv usPerDay < 7) := by
  refine ⟨processCases_filter now _ (fun c hc => h c (mem_sortCases.mp hc)), ?_⟩
  intro c t ht
  simp [caseKept, ht]

/-- Witness for `get_new_cases_window`: a case 6 days 23 hours old is kept. -/
theorem get_new_cases_window_witness :
    get_new_cases (epochUs 2026 10 12 0 0 0)
        [⟨"02", "2 (Medium)", "2026-10-05T01:00:00Z", "s"⟩] =
      .ok [⟨"02", "Medium", "2026-10-05T01:00:00Z", "s"⟩] :=
  (get_new_cases_window (epochUs 2026 10 12 0 0 0)
    [⟨"02", "2 (Medium)", "2026-10-05T01:00:00Z", "s"⟩] (by decide)).1.trans (by decide)

/-! ## Claim C5: comment window boundary -/

/-- Claim C5: when every comment timestamp parses, the comment window keeps
    exactly the bodies of comments with `(now - updated).days < 7`; the
    boundary is strict, so a comment exactly 7 days old (`days = 7`) is
    excluded while one 6 days 23 hours old (`days = 6`) is included. -/
theorem comment_window_boundary (now : Int) (ms : List Comment)
    (h : ∀ m ∈ ms, (parseCommentTs m.updated).isSome) :
    windowComments now ms = .ok ((ms.filter (commentKept now)).map Comment.body) ∧
      ∀ m t, parseCommentTs m.updated = some t →
        (commentKept now m = true ↔ (now - t).fdiv usPerDay < 7) := by
  have hfilter : windowComments now ms =
      .ok ((ms.filter (commentKept now)).map Comment.body) := by
    induction ms with
    | nil => rfl
    | cons m rest ih =>
      obtain ⟨t, ht⟩ := Option.isSome_iff_exists.mp (h m (by simp))
      have ih' := ih (fun d hd => h d (by simp [hd]))
      by_cases hk : (now - t).fdiv usPerDay < 7
      · simp [windowComments, ht, ih', List.filter_cons, commentKept, hk]
      · simp [windowComments, ht, ih', List.filter_cons, commentKept, hk]
    -- the induction hypothesis needs the weakened parse assumption
  refine ⟨hfilter, ?_⟩
  intro m t ht
  simp [commentKept, ht]

/-- Witness for `comment_window_boundary`: a comment exactly 7 days old is
    dropped, one 6 days 23 hours old is kept. -/
theorem comment_window_boundary_witness :
    windowComments (epochUs 2026 10 12 0 0 0)
        [⟨"old", "2026-10-05T00:00:00.000000+0000"⟩,
         ⟨"recent", "2026-10-05T01:00:00.000000+0000"⟩] = .ok ["recent"] :=
  (comment_window_boundary (epochUs 2026 10 12 0 0 0)
      [⟨"old", "2026-10-05T00:00:00.000000+0000"⟩,
       ⟨"recent", "2026-10-05T01:00:00.000000+0000"⟩] (by decide)).1.trans (by decide)

/-! ## Claim C8: severity normalization -/

/-- Claim C8, counterexample: normalizing the severity string "1 (High!)"
    yields "High!", which still contains the non-alphabetic character `!`;
    the rewrite only strips parentheses, spaces and digits. -/
theorem severity_strip_nonalpha_cex :
    stripSeverity "1 (High!)" = "High!" ∧ ("High!".data.all Char.isAlpha) = false := by
  exact ⟨by decide, by decide⟩

/-- Claim C8 (amended): the normalized severity contains no parenthesis
    character, no space and no decimal digit (all other characters pass
    through unchanged). -/
theorem severity_strip_chars (s : String) (c : Char)
    (h : c ∈ (stripSeverity s).data) :
    c ≠ '(' ∧ c ≠ ')' ∧ c ≠ ' ' ∧ c.isDigit = false := by
  have h2 : c ∈ s.data.filter
      (fun c => !(c = '(' || c = ')' || c = ' ' || c.isDigit)) := h
  have h3 := (List.mem_filter.mp h2).2
  simp only [Bool.not_eq_true', Bool.or_eq_false_iff, decide_eq_false_iff_not] at h3
  exact ⟨h3.1.1.1, h3.1.1.2, h3.1.2, h3.2⟩

/-- Witness for `severity_strip_chars` on the spec's own example. -/
theorem severity_strip_chars_witness :
    ('M' ∈ (stripSeverity "2 (Medium)").data) ∧
      ('M' ≠ '(' ∧ 'M' ≠ ')' ∧ 'M' ≠ ' ' ∧ 'M'.isDigit = false) :=
  ⟨by decide, severity_strip_chars "2 (Medium)" 'M' (by decide)⟩

/-! ## Claim C9: future-dated cases -/

/-- Claim C9: a case whose creation timestamp lies in the future has a
    negative day count, which satisfies the `< 7` window test, so
    `get_new_cases` includes it (severity-stripped) in the result. -/
theorem future_case_included (now t : Int) (c : Case) (cases res : List Case)
    (hc : c ∈ cases) (ht : parseCaseDate c.case_createdDate = some t)
    (hf : now < t) (hok : get_new_cases now cases = .ok res) :
    (now - t).fdiv usPerDay < 0 ∧ stripCase c ∈ res := by
  have hneg : (now - t).fdiv usPerDay < 0 := fdiv_day_neg (by omega)
  exact ⟨hneg,
    processCases_mem now (sortCases cases) res c t hok (mem_sortCases.mpr hc) ht
      (by omega)⟩

/-- Witness for `future_case_included`: a case dated one day in the future. -/
theorem future_case_included_witness :
    (epochUs 2026 10 12 0 0 0 - epochUs 2026 10 13 0 0 0).fdiv usPerDay < 0 ∧
      stripCase ⟨"9", "1 (Urgent)", "2026-10-13T00:00:00Z", "s"⟩ ∈
        [stripCase ⟨"9", "1 (Urgent)", "2026-10-13T00:00:00Z", "s"⟩] :=
  future_case_included (epochUs 2026 10 12 0 0 0) (epochUs 2026 10 13 0 0 0)
    ⟨"9", "1 (Urgent)", "2026-10-13T00:00:00Z", "s"⟩
    [⟨"9", "1 (Urgent)", "2026-10-13T00:00:00Z", "s"⟩]
    [stripCase ⟨"9", "1 (Urgent)", "2026-10-13T00:00:00Z", "s"⟩]
    (by decide) (by decide) (by decide) (by decide)

/-! ## Claim C10: last qualifying link wins -/

/-- The predicate under which a remote link sets the association: titled
    "Support Case" and yielding a non-empty case number. -/
def linkQualifies (gcn : String → String) (l : RemoteLink) : Bool :=
  l.title == "Support Case" && decide (0 < (gcn l.url).length)

/-- Folding the link loop from any accumulator yields the number of the last
    qualifying link, or the accumulator when none qualifies. -/
theorem assocStep_foldl (gcn : String → String) (links : List RemoteLink) :
    ∀ acc : Option String,
      links.foldl (assocStep gcn) acc =
        match links.reverse.find? (linkQualifies gcn) with
        | some l => some (gcn l.url)
        | none => acc := by
  induction links using List.reverseRecOn with
  | nil => intro acc; rfl
  | append_singleton xs x ih =>
    intro acc
    rw [List.foldl_append, List.foldl_cons, List.foldl_nil, ih,
      List.reverse_append, List.reverse_singleton, List.singleton_append,
      List.find?_cons]
    by_cases hq : linkQualifies gcn x = true
    · have ht : (x.title == "Support Case") = true := by
        simp only [linkQualifies, Bool.and_eq_true] at hq
        exact hq.1
      have hl : 0 < (gcn x.url).length := by
        simp only [linkQualifies, Bool.and_eq_true, decide_eq_true_eq] at hq
        exact hq.2
      cases hfind : xs.reverse.find? (linkQualifies gcn) with
      | none => simp [hq, assocStep, ht, hl]
      | some l => simp [hq, assocStep, ht, hl]
    · rw [Bool.not_eq_true] at hq
      rw [hq]
      simp only [assocStep]
      by_cases ht : (x.title == "Support Case") = true
      · have hl : ¬ 0 < (gcn x.url).length := by
          simp only [linkQualifies, ht, Bool.true_and, decide_eq_true_eq] at hq
          simpa using hq
        cases hfind : xs.reverse.find? (linkQualifies gcn) with
        | none => simp [ht, hl]
        | some l => simp [ht, hl]
      · rw [Bool.not_eq_true] at ht
        cases hfind : xs.reverse.find? (linkQualifies gcn) with
        | none => simp [ht]
        | some l => simp [ht]

/-- Claim C10: the association of a card is the case number extracted from the
    last remote link titled "Support Case" whose URL yields a non-empty case
    number (each later qualifying link overwrites the earlier association, and
    links yielding an empty number leave it unchanged); `None` when no link
    qualifies. -/
theorem associate_last_link (gcn : String → String) (links : List RemoteLink) :
    associate gcn links =
      (links.reverse.find? (linkQualifies gcn)).map (fun l => gcn l.url) := by
  rw [associate, assocStep_foldl]
  cases h : links.reverse.find? (linkQualifies gcn) with
  | none => rfl
  | some l => rfl

/-! ## Claim C7: malformed timestamps are fatal -/

/-- A case whose creation date fails to parse aborts the whole loop. -/
theorem processCases_error (now : Int) (l : List Case)
    (h : ∃ c ∈ l, parseCaseDate c.case_createdDate = none) :
    ∃ e, processCases now l = .error e := by
  induction l with
  | nil => simp at h
  | cons d rest ih =>
    cases hd : parseCaseDate d.case_createdDate with
    | none => exact ⟨_, by rw [processCases, hd]⟩
    | some td =>
      obtain ⟨c, hc, hcn⟩ := h
      rcases List.mem_cons.mp hc with rfl | hcr
      · rw [hd] at hcn; cases hcn
      · obtain ⟨e, he⟩ := ih ⟨c, hcr, hcn⟩
        exact ⟨e, by rw [processCases, hd, he]⟩

/-- A comment whose timestamp fails to parse aborts the whole comprehension. -/
theorem windowComments_error (now : Int) (ms : List Comment)
    (h : ∃ m ∈ ms, parseCommentTs m.updated = none) :
    ∃ e, windowComments now ms = .error e := by
  induction ms with
  | nil => simp at h
  | cons d rest ih =>
    cases hd : parseCommentTs d.updated with
    | none => exact ⟨_, by rw [windowComments, hd]⟩
    | some td =>
      obtain ⟨m, hm, hmn⟩ := h
      rcases List.mem_cons.mp hm with rfl | hmr
      · rw [hd] at hmn; cases hmn
      · obtain ⟨e, he⟩ := ih ⟨m, hmr, hmn⟩
        exact ⟨e, by rw [windowComments, hd, he]⟩

/-- A card reached by the `detailed_cards` loop whose comment windowing raises
    makes the whole loop raise. -/
theorem buildDetailed_error (now : Int) (cases : List (String × CaseInfo))
    (lst : List (CardInput × String)) (c : CardInput) (num : String)
    (hmem : (c, num) ∈ lst) (hinfo : (lookupCI cases num).isSome)
    (hw : ∃ e, windowComments now c.comments = .error e) :
    ∃ e, buildDetailed now cases lst = .error e := by
  induction lst with
  | nil => simp at hmem
  | cons p rest ih =>
    obtain ⟨cp, np⟩ := p
    rcases List.mem_cons.mp hmem with heq | hr
    · injection heq with h1 h2
      subst h1
      subst h2
      obtain ⟨i, hi⟩ := Option.isSome_iff_exists.mp hinfo
      obtain ⟨e, he⟩ := hw
      exact ⟨e, by rw [buildDetailed, hi, he]⟩
    · cases hip : lookupCI cases np with
      | none =>
        obtain ⟨e, he⟩ := ih hr
        refine ⟨e, ?_⟩
        rw [buildDetailed, hip]
        exact he
      | some i =>
        cases hwp : windowComments now cp.comments with
        | error e => exact ⟨e, by rw [buildDetailed, hip, hwp]⟩
        | ok bodies =>
          obtain ⟨e, he⟩ := ih hr
          exact ⟨e, by rw [buildDetailed, hip, hwp, he]⟩

/-- When card keys are distinct, the dict construction keeps every card. -/
theorem dedupByKey_eq_self (cards : List CardInput) :
    ∀ seen : List String, (∀ c ∈ cards, c.key ∉ seen) →
      (cards.map CardInput.key).Nodup → dedupByKey seen cards = cards := by
  induction cards with
  | nil => intro seen _ _; rfl
  | cons c rest ih =>
    intro seen hseen h
    rw [List.map_cons, List.nodup_cons] at h
    rw [dedupByKey, if_neg (hseen c (by simp))]
    rw [ih (c.key :: seen) ?_ h.2]
    intro d hd
    simp only [List.mem_cons, not_or]
    exact ⟨fun hdc => h.1 (hdc ▸ List.mem_map_of_mem CardInput.key hd),
      hseen d (by simp [hd])⟩

/-- A card with a resolved case number appears in `linked_cards`. -/
theorem linkedCards_mem (gcn : String → String) (cards : List CardInput)
    (c : CardInput) (n : String) (hnd : (cards.map CardInput.key).Nodup)
    (hc : c ∈ cards) (ha : associate gcn c.links = some n) :
    (c, n) ∈ linkedCards gcn cards := by
  rw [linkedCards, dedupByKey_eq_self cards [] (by simp) hnd]
  exact List.mem_filterMap.mpr ⟨c, hc, by rw [ha]; rfl⟩

/-- Claim C7: a creation date not matching `%Y-%m-%dT%H:%M:%SZ` makes
    `get_new_cases` fail with a raised error, and a comment timestamp not
    matching `%Y-%m-%dT%H:%M:%S.%f%z` on a card that the `detailed_cards` loop
    reaches (linked, with its case present) makes `get_new_comments` fail with
    a raised error; in neither case is the record silently coerced or
    dropped. -/
theorem malformed_timestamp_fatal :
    (∀ (now : Int) (cases : List Case),
        (∃ c ∈ cases, parseCaseDate c.case_createdDate = none) →
        ∃ e, get_new_cases now cases = .error e) ∧
      (∀ (gcn : String → String) (now : Int) (cards : List CardInput)
          (cases : List (String × CaseInfo)) (accounts : AccountsCfg)
          (c : CardInput) (n : String) (m : Comment),
        (cards.map CardInput.key).Nodup → c ∈ cards →
        associate gcn c.links = some n → (lookupCI cases n).isSome →
        m ∈ c.comments → parseCommentTs m.updated = none →
        ∃ e, get_new_comments gcn now cards cases accounts = .error e) := by
  constructor
  · intro now cases ⟨c, hc, hn⟩
    exact processCases_error now _ ⟨c, mem_sortCases.mpr hc, hn⟩
  · intro gcn now cards cases accounts c n m hnd hc ha hl hm hp
    have hw := windowComments_error now c.comments ⟨m, hm, hp⟩
    obtain ⟨e, he⟩ :=
      buildDetailed_error now cases _ c n (linkedCards_mem gcn cards c n hnd hc ha) hl hw
    exact ⟨e, by rw [get_new_comments, he]⟩

/-- Witness for `malformed_timestamp_fatal` at concrete malformed inputs. -/
theorem malformed_timestamp_fatal_witness :
    (∃ e, get_new_cases 0 [⟨"1", "sev", "garbage", "s"⟩] = .error e) ∧
      (∃ e, get_new_comments (fun u => u) 0
          [⟨"K1", "sum", "st", "a", [⟨"b", "bad"⟩], [⟨"Support Case", "1"⟩]⟩]
          [("1", ⟨"Acme", []⟩)] [] = .error e) :=
  ⟨malformed_timestamp_fatal.1 0 _ ⟨⟨"1", "sev", "garbage", "s"⟩, by decide, by decide⟩,
   malformed_timestamp_fatal.2 (fun u => u) 0 _ _ []
     ⟨"K1", "sum", "st", "a", [⟨"b", "bad"⟩], [⟨"Support Case", "1"⟩]⟩ "1" ⟨"b", "bad"⟩
     (by decide) (by decide) (by decide) (by decide) (by decide) (by decide)⟩

/-! ## Claim C3: hyperlink rewriting is not idempotent -/

set_option maxRecDepth 40000 in
/-- Claim C3: the hyperlink-rewriting step is NOT idempotent.  On the comment
    body "http://a.bc" one application wraps the URL in anchor markup, but a
    second application matches the URL again inside the `href` attribute and
    between the tags (the lookbehind `(?<!\||\s)` does not exclude a preceding
    `"` or `>`), producing a double-wrapped result different from the first.
    This contradicts the required idempotence. -/
theorem rewrite_not_idempotent :
    rewriteComment "http://a.bc" =
        "<a href=\"http://a.bc\" target='_blank'>http://a.bc</a>" ∧
      rewriteComment (rewriteComment "http://a.bc") =
        "<a href=\"<a href=\"http://a.bc\" target='_blank'>http://a.bc</a>\" target='_blank'><a href=\"http://a.bc\" target='_blank'>http://a.bc</a></a>" ∧
      rewriteComment (rewriteComment "http://a.bc") ≠ rewriteComment "http://a.bc" := by
  refine ⟨by decide, by decide, by decide⟩

/-! ## Claim C4: account assignment -/

theorem updateRec_any (recs : RecMap) (i : String) (dc : DetailedCard) :
    (updateRec recs i dc).any (fun p => p.1 == i) = true := by
  rw [updateRec]
  by_cases h : recs.any (fun p => p.1 == i) = true
  · rw [if_pos h]
    obtain ⟨p, hp, hpi⟩ := List.any_eq_true.mp h
    refine List.any_eq_true.mpr ⟨(i, dc), List.mem_map.mpr ⟨p, hp, ?_⟩, by simp⟩
    rw [if_pos hpi]
  · rw [if_neg h]
    exact List.any_eq_true.mpr ⟨(i, dc), by simp, by simp⟩

theorem updateRec_map_self (recs : RecMap) (i : String) (dc : DetailedCard) :
    (updateRec recs i dc).map (fun p => if p.1 == i then (i, dc) else p) =
      updateRec recs i dc := by
  rw [updateRec]
  by_cases h : recs.any (fun p => p.1 == i) = true
  · rw [if_pos h, List.map_map]
    apply List.map_congr_left
    intro p _
    by_cases hpi : (p.1 == i) = true
    · simp [Function.comp, hpi]
    · simp [Function.comp, hpi]
  · rw [if_neg h, List.map_append]
    have h1 : recs.map (fun p => if p.1 == i then (i, dc) else p) = recs := by
      have h2 := List.any_eq_false.mp (Bool.not_eq_true _ ▸ h)
      calc recs.map (fun p => if p.1 == i then (i, dc) else p)
          = recs.map id := List.map_congr_left (by
            intro p hp
            simp [h2 p hp])
        _ = recs := List.map_id recs
    rw [h1]
    simp

/-- `dict.update` with the same key and value twice is the same as once. -/
theorem updateRec_idem (recs : RecMap) (i : String) (dc : DetailedCard) :
    updateRec (updateRec recs i dc) i dc = updateRec recs i dc := by
  conv_lhs => rw [updateRec]
  rw [if_pos (updateRec_any recs i dc)]
  exact updateRec_map_self recs i dc

/-- The tag loop of lines 128-130: fold a conditional `update` over the tags.
    Because `update` with identical arguments is idempotent, the loop amounts
    to a single conditional update on whether any tag satisfies the
    condition. -/
theorem foldl_updateRec (i : String) (dc : DetailedCard) (cond : String → Bool)
    (tags : List String) (recs : RecMap) :
    tags.foldl (fun r k => if cond k then updateRec r i dc else r) recs =
      if tags.any cond then updateRec recs i dc else recs := by
  induction tags generalizing recs with
  | nil => simp
  | cons k rest ih =>
    rw [List.foldl_cons, List.any_cons]
    by_cases hk : cond k = true
    · simp [hk, ih, updateRec_idem]
    · simp [hk, ih]

/-- The effective per-slot matching condition of lines 123-130: either the
    configured account name is a case-insensitive substring of the record's
    account, or the account is "CNV" and "cnv" occurs (case-insensitively) in
    the record's summary or one of its tags; in all cases the slot's status
    label must equal the record's card status. -/
def acctMatch (account status : String) (dc : DetailedCard) : Bool :=
  (containsSub (lowerStr account.data) (lowerStr dc.account.data) ||
    (account == "CNV" &&
      (containsSub "cnv".data (lowerStr dc.summary.data) ||
        dc.tags.any (fun k => containsSub "cnv".data (lowerStr k.data))))) &&
  status == dc.card_status

/-- Claim C4 (amended): a record is added to the `(account, status)` slot
    exactly when `acctMatch` holds — the configured account name is matched as
    a case-insensitive substring of the record's resolved account (with the
    CNV keyword override as an alternative route), and the record is added to
    EVERY matching configured account, not only the first; a record matching
    no slot leaves the structure unchanged (omitted without error). -/
theorem slot_assignment (i : String) (dc : DetailedCard) (account status : String)
    (recs : RecMap) :
    slotStep i dc account status recs =
      if acctMatch account status dc then updateRec recs i dc else recs := by
  simp only [slotStep, acctMatch, foldl_updateRec]
  by_cases hst : (status == dc.card_status) = true
  · by_cases hcnv : (account == "CNV") = true
    · by_cases hsum : containsSub "cnv".data (lowerStr dc.summary.data) = true
      · by_cases hsub : containsSub (lowerStr account.data) (lowerStr dc.account.data) = true
        · simp [hst, hcnv, hsum, hsub, updateRec_idem]
        · simp [hst, hcnv, hsum, hsub]
      · by_cases htag :
            (dc.tags.any fun k => containsSub "cnv".data (lowerStr k.data)) = true
        · by_cases hsub : containsSub (lowerStr account.data) (lowerStr dc.account.data) = true
          · simp [hst, hcnv, hsum, htag, hsub, updateRec_idem]
          · simp [hst, hcnv, hsum, htag, hsub]
        · by_cases hsub : containsSub (lowerStr account.data) (lowerStr dc.account.data) = true
          · simp [hst, hcnv, hsum, htag, hsub]
          · simp [hst, hcnv, hsum, htag, hsub]
    · by_cases hsub : containsSub (lowerStr account.data) (lowerStr dc.account.data) = true
      · simp [hst, hcnv, hsub]
      · simp [hst, hcnv, hsub]
  · simp [hst]

/-- Claim C4, counterexample: with configured accounts "Acme" and "Acme Corp",
    a record whose resolved account is "Acme Corp" is placed under BOTH
    accounts (both names are case-insensitive substrings), contradicting
    "the first matching configured account wins / exactly one account". -/
theorem account_first_match_cex :
    groupCards [("K1", ⟨"1", "s", "Acme Corp", "Closed", ["x"], "a", []⟩)]
        [("Acme", [("Closed", [])]), ("Acme Corp", [("Closed", [])])] =
      [("Acme", [("Closed", [("K1", ⟨"1", "s", "Acme Corp", "Closed", ["x"], "a", []⟩)])]),
       ("Acme Corp",
        [("Closed", [("K1", ⟨"1", "s", "Acme Corp", "Closed", ["x"], "a", []⟩)])])] := by
  rfl

/-! ## Claim C1: aggregation result shape -/

theorem addCard_mem {acc : AccountsCfg} {i : String} {dc : DetailedCard}
    {a : String} {sts : StatusMap} (h : (a, sts) ∈ addCard acc i dc) :
    ∃ sts0, (a, sts0) ∈ acc ∧ sts.map Prod.fst = sts0.map Prod.fst := by
  obtain ⟨⟨a0, sts0⟩, he, heq⟩ := List.mem_map.mp h
  injection heq with h1 h2
  subst h1
  subst h2
  refine ⟨sts0, he, ?_⟩
  rw [List.map_map]
  rfl

theorem groupCards_mem (d : List (String × DetailedCard)) :
    ∀ (acc : AccountsCfg) (a : String) (sts : StatusMap),
      (a, sts) ∈ groupCards d acc →
      ∃ sts0, (a, sts0) ∈ acc ∧ sts.map Prod.fst = sts0.map Prod.fst := by
  induction d with
  | nil => intro acc a sts h; exact ⟨sts, h, rfl⟩
  | cons p rest ih =>
    intro acc a sts h
    obtain ⟨sts1, h1, e1⟩ := ih (addCard acc p.1 p.2) a sts h
    obtain ⟨sts0, h0, e0⟩ := addCard_mem h1
    exact ⟨sts0, h0, e1.trans e0⟩

theorem finalize_mem {acc : AccountsCfg} {a : String} {v : AcctVal}
    (h : (a, v) ∈ finalize acc) :
    ∃ sts0, (a, sts0) ∈ acc ∧
      ((countRecs sts0 = 0 ∧ v = AcctVal.noUpdates) ∨
        (countRecs sts0 ≠ 0 ∧ v = AcctVal.groups sts0)) := by
  obtain ⟨⟨a0, sts0⟩, he, heq⟩ := List.mem_map.mp h
  by_cases hc : countRecs (a0, sts0).2 = 0
  · rw [if_pos hc] at heq
    injection heq with h1 h2
    subst h1
    exact ⟨sts0, he, Or.inl ⟨hc, h2.symm⟩⟩
  · rw [if_neg hc] at heq
    injection heq with h1 h2
    subst h1
    exact ⟨sts0, he, Or.inr ⟨hc, h2.symm⟩⟩

theorem finalize_fst (acc : AccountsCfg) :
    (finalize acc).map Prod.fst = acc.map Prod.fst := by
  rw [finalize, List.map_map]
  apply List.map_congr_left
  intro a _
  by_cases hc : countRecs a.2 = 0 <;> simp [Function.comp, hc]

theorem addCard_fst (acc : AccountsCfg) (i : String) (dc : DetailedCard) :
    (addCard acc i dc).map Prod.fst = acc.map Prod.fst := by
  rw [addCard, List.map_map]
  rfl

theorem groupCards_fst (d : List (String × DetailedCard)) :
    ∀ acc : AccountsCfg, (groupCards d acc).map Prod.fst = acc.map Prod.fst := by
  induction d with
  | nil => intro acc; rfl
  | cons p rest ih =>
    intro acc
    exact (ih (addCard acc p.1 p.2)).trans (addCard_fst acc p.1 p.2)

/-- Claim C1, counterexample: on the empty correlated-record set, the
    configured account "Acme" is not mapped to a status map — its value is
    replaced by the "No Updates" marker (a plain string in the Python code),
    contradicting "every fixed status label appears under each account and no
    account value is a non-map". -/
theorem aggregation_no_updates_cex :
    get_new_comments (fun u => u) 0 [] [] [("Acme", [("Closed", [])])] =
      .ok [("Acme", AcctVal.noUpdates)] := by
  rfl

/-- Claim C1 (amended): the aggregation keeps every configured account as a
    top-level key in configuration order; an account whose value is still a
    status map has exactly the configured status labels of that account as
    inner keys and holds at least one record; an account with zero records
    has its status map replaced by the "No Updates" marker. -/
theorem aggregation_shape (detailed : List (String × DetailedCard))
    (accounts : AccountsCfg) :
    (finalize (groupCards detailed accounts)).map Prod.fst = accounts.map Prod.fst ∧
      ∀ a v, (a, v) ∈ finalize (groupCards detailed accounts) →
        ∀ sts, v = AcctVal.groups sts →
          countRecs sts ≠ 0 ∧
            ∃ sts0, (a, sts0) ∈ accounts ∧ sts.map Prod.fst = sts0.map Prod.fst := by
  constructor
  · exact (finalize_fst _).trans (groupCards_fst detailed accounts)
  · intro a v hv sts hsts
    subst hsts
    obtain ⟨sts1, h1, hca⟩ := finalize_mem hv
    rcases hca with ⟨_, hvn⟩ | ⟨hc0, hvg⟩
    · cases hvn
    · injection hvg with hse
      subst hse
      exact ⟨hc0, groupCards_mem detailed accounts a _ h1⟩

/-! ## Claim C6: empty-windowed cards vanish from the output -/

theorem updateRec_pred {P : String → Prop} {recs : RecMap} {i : String}
    {dc : DetailedCard} (h : ∀ p ∈ recs, P p.1) (hi : P i) :
    ∀ q ∈ updateRec recs i dc, P q.1 := by
  intro q hq
  rw [updateRec] at hq
  by_cases hc : recs.any (fun p => p.1 == i) = true
  · rw [if_pos hc] at hq
    obtain ⟨p, hp, heq⟩ := List.mem_map.mp hq
    by_cases hpi : (p.1 == i) = true
    · rw [if_pos hpi] at heq
      rw [← heq]
      exact hi
    · rw [if_neg hpi] at heq
      rw [← heq]
      exact h p hp
  · rw [if_neg hc] at hq
    rcases List.mem_append.mp hq with hq | hq
    · exact h q hq
    · rw [List.mem_singleton.mp hq]
      exact hi

theorem ite_rec_pred {P : String → Prop} {recs : RecMap} {i : String}
    {dc : DetailedCard} (c : Prop) [Decidable c]
    (h : ∀ p ∈ recs, P p.1) (hi : P i) :
    ∀ p ∈ (if c then updateRec recs i dc else recs), P p.1 := by
  split
  · exact updateRec_pred h hi
  · exact h

theorem slotStep_pred {P : String → Prop} {i : String} {dc : DetailedCard}
    {account status : String} {recs : RecMap}
    (h : ∀ p ∈ recs, P p.1) (hi : P i) :
    ∀ q ∈ slotStep i dc account status recs, P q.1 := by
  intro q hq
  simp only [slotStep, foldl_updateRec] at hq
  split at hq
  · exact updateRec_pred (ite_rec_pred _ h hi) hi q hq
  · split at hq
    · exact updateRec_pred (ite_rec_pred _ h hi) hi q hq
    · exact ite_rec_pred _ h hi q hq

theorem addCard_pred {P : String → Prop} {acc : AccountsCfg} {i : String}
    {dc : DetailedCard}
    (hacc : ∀ a ∈ acc, ∀ s ∈ a.2, ∀ p ∈ s.2, P p.1) (hi : P i) :
    ∀ a ∈ addCard acc i dc, ∀ s ∈ a.2, ∀ p ∈ s.2, P p.1 := by
  intro a ha s hs p hp
  obtain ⟨a0, ha0, rfl⟩ := List.mem_map.mp ha
  obtain ⟨s0, hs0, rfl⟩ := List.mem_map.mp hs
  exact slotStep_pred (hacc a0 ha0 s0 hs0) hi p hp

theorem groupCards_pred {P : String → Prop} (d : List (String × DetailedCard)) :
    ∀ acc : AccountsCfg,
      (∀ q ∈ d, P q.1) → (∀ a ∈ acc, ∀ s ∈ a.2, ∀ p ∈ s.2, P p.1) →
      ∀ a ∈ groupCards d acc, ∀ s ∈ a.2, ∀ p ∈ s.2, P p.1 := by
  induction d with
  | nil => intro acc _ hacc; exact hacc
  | cons q rest ih =>
    intro acc hd hacc
    exact ih (addCard acc q.1 q.2) (fun r hr => hd r (by simp [hr]))
      (addCard_pred hacc (hd q (by simp)))

/-- Every record of a successful `detailed_cards` loop comes from a linked
    card whose windowed comment list is non-empty. -/
theorem buildDetailed_keys (now : Int) (cases : List (String × CaseInfo)) :
    ∀ (lst : List (CardInput × String)) (d : List (String × DetailedCard)),
      buildDetailed now cases lst = .ok d →
      ∀ p ∈ d, ∃ cn ∈ lst, cn.1.key = p.1 ∧
        ∃ bodies, windowComments now cn.1.comments = .ok bodies ∧ bodies ≠ [] := by
  intro lst
  induction lst with
  | nil =>
    intro d hd p hp
    rw [buildDetailed] at hd
    injection hd with h
    subst h
    simp at hp
  | cons q rest ih =>
    intro d hd p hp
    obtain ⟨cq, nq⟩ := q
    cases hi : lookupCI cases nq with
    | none =>
      rw [buildDetailed, hi] at hd
      simp only [] at hd
      obtain ⟨cn, hcn, h1, h2⟩ := ih d hd p hp
      exact ⟨cn, by simp [hcn], h1, h2⟩
    | some info =>
      cases hw : windowComments now cq.comments with
      | error e =>
        rw [buildDetailed, hi, hw] at hd
        exact Except.noConfusion hd
      | ok bodies =>
        cases hrest : buildDetailed now cases rest with
        | error e =>
          rw [buildDetailed, hi, hw, hrest] at hd
          exact Except.noConfusion hd
        | ok rest' =>
          rw [buildDetailed, hi, hw, hrest] at hd
          simp only [] at hd
          by_cases hb : (bodies.length == 0) = true
          · rw [if_pos hb] at hd
            injection hd with h
            subst h
            obtain ⟨cn, hcn, h1, h2⟩ := ih rest' hrest p hp
            exact ⟨cn, by simp [hcn], h1, h2⟩
          · rw [if_neg hb] at hd
            injection hd with h
            subst h
            rcases List.mem_cons.mp hp with rfl | hpr
            · refine ⟨(cq, nq), by simp, rfl, bodies, hw, ?_⟩
              intro hnil
              subst hnil
              simp at hb
            · obtain ⟨cn, hcn, h1, h2⟩ := ih rest' hrest p hpr
              exact ⟨cn, by simp [hcn], h1, h2⟩

/-- Claim C6: a card whose comment list is empty after time-window filtering
    contributes no correlated record: given distinct card keys and initially
    empty configured record maps, the card's key appears nowhere in the
    account/status aggregation output of `get_new_comments`, regardless of its
    link validity. -/
theorem empty_windowed_card_dropped (gcn : String → String) (now : Int)
    (cards : List CardInput) (cases : List (String × CaseInfo))
    (accounts : AccountsCfg) (c : CardInput) (out : List (String × AcctVal))
    (hnd : (cards.map CardInput.key).Nodup)
    (hacc : ∀ a ∈ accounts, ∀ s ∈ a.2, s.2 = ([] : RecMap))
    (hc : c ∈ cards)
    (hw : windowComments now c.comments = .ok [])
    (hok : get_new_comments gcn now cards cases accounts = .ok out) :
    ∀ av ∈ out, ∀ sts, av.2 = AcctVal.groups sts →
      ∀ sr ∈ sts, ∀ p ∈ sr.2, p.1 ≠ c.key := by
  intro av hav sts hsts sr hsr p hp
  cases hb : buildDetailed now cases (linkedCards gcn cards) with
  | error e =>
    rw [get_new_comments, hb] at hok
    exact Except.noConfusion hok
  | ok detailed =>
    rw [get_new_comments, hb] at hok
    simp only [] at hok
    injection hok with hout
    subst hout
    have hkeys : ∀ q ∈ rewriteCards detailed, q.1 ≠ c.key := by
      intro q hq
      obtain ⟨q0, hq0, rfl⟩ := List.mem_map.mp hq
      obtain ⟨cn, hcn, hkey, bodies, hwin, hne⟩ :=
        buildDetailed_keys now cases _ detailed hb q0 hq0
      obtain ⟨c1, hc1mem, heq1⟩ := List.mem_filterMap.mp hcn
      have hc1cards : c1 ∈ cards := by
        rw [dedupByKey_eq_self cards [] (by simp) hnd] at hc1mem
        exact hc1mem
      cases ha1 : associate gcn c1.links with
      | none => rw [ha1] at heq1; exact Option.noConfusion heq1
      | some n1 =>
        rw [ha1] at heq1
        injection heq1 with heq2
        have hcnc1 : cn.1 = c1 := by rw [← heq2]
        intro hkc
        have hc1key : c1.key = c.key := by rw [← hcnc1, hkey]; exact hkc
        have hceq : c1 = c := List.inj_on_of_nodup_map hnd hc1cards hc hc1key
        apply hne
        rw [hcnc1, hceq, hw] at hwin
        injection hwin with h
        exact h.symm
    have hini : ∀ a ∈ accounts, ∀ s ∈ a.2, ∀ p ∈ s.2, p.1 ≠ c.key := by
      intro a ha s hs p hp
      rw [hacc a ha s hs] at hp
      simp at hp
    obtain ⟨sts1, h1, hca⟩ := finalize_mem (show (av.1, av.2) ∈ _ from hav)
    rcases hca with ⟨_, hvn⟩ | ⟨_, hvg⟩
    · rw [hsts] at hvn
      exact AcctVal.noConfusion hvn
    · rw [hsts] at hvg
      injection hvg with hse
      subst hse
      exact groupCards_pred (P := fun k => k ≠ c.key) _ accounts hkeys hini _ h1 sr hsr p hp

/-- Witness for `empty_windowed_card_dropped`: card K1 has only a stale
    comment and vanishes; card K2 remains, and the record surviving in the
    output is K2's, not K1's. -/
theorem empty_windowed_card_dropped_witness :
    (get_new_comments (fun u => u) (epochUs 2026 10 12 0 0 0)
        [⟨"K1", "s1", "Closed", "a",
          [⟨"old", "2026-01-01T00:00:00.000000+0000"⟩], [⟨"Support Case", "1"⟩]⟩,
         ⟨"K2", "s2", "Closed", "a",
          [⟨"hi", "2026-10-11T00:00:00.000000+0000"⟩], [⟨"Support Case", "1"⟩]⟩]
        [("1", ⟨"Acme", []⟩)] [("Acme", [("Closed", [])])] =
      .ok [("Acme", AcctVal.groups
        [("Closed", [("K2", ⟨"1", "s2", "Acme", "Closed", ["hi"], "a", []⟩)])])]) ∧
      ("K2" : String) ≠ "K1" := by
  constructor
  · rfl
  · exact empty_windowed_card_dropped (fun u => u) (epochUs 2026 10 12 0 0 0)
      [⟨"K1", "s1", "Closed", "a",
        [⟨"old", "2026-01-01T00:00:00.000000+0000"⟩], [⟨"Support Case", "1"⟩]⟩,
       ⟨"K2", "s2", "Closed", "a",
        [⟨"hi", "2026-10-11T00:00:00.000000+0000"⟩], [⟨"Support Case", "1"⟩]⟩]
      [("1", ⟨"Acme", []⟩)] [("Acme", [("Closed", [])])]
      ⟨"K1", "s1", "Closed", "a",
        [⟨"old", "2026-01-01T00:00:00.000000+0000"⟩], [⟨"Support Case", "1"⟩]⟩
      [("Acme", AcctVal.groups
        [("Closed", [("K2", ⟨"1", "s2", "Acme", "Closed", ["hi"], "a", []⟩)])])]
      (by decide) (by decide) (by decide) (by rfl) (by rfl)
      ("Acme", AcctVal.groups
        [("Closed", [("K2", ⟨"1", "s2", "Acme", "Closed", ["hi"], "a", []⟩)])])
      (by decide) _ rfl
      ("Closed", [("K2", ⟨"1", "s2", "Acme", "Closed", ["hi"], "a", []⟩)])
      (by decide)
      ("K2", ⟨"1", "s2", "Acme", "Closed", ["hi"], "a", []⟩)
      (by decide)
